import Mathlib

/-!
Shallow embedding of `src/monitor.py` (KNU notice monitor): the
extraction → deduplication → delivery pipeline.  Markup queries that
BeautifulSoup answers are modelled as functions attached to each row;
every other operation is translated directly from the Python source.
-/

namespace Monitor

/-- An element of page markup, carrying exactly what the code reads from a
selected node: its text (`get_text()`) and its `href` attribute. -/
structure Element where
  text : String
  href : Option String
deriving Repr, DecidableEq

/-- A candidate row, modelled by the queries the code makes against it:
`row.select(sel)` (all matches, in document order), the tag name
(`row.name`) and the row's own `href` attribute (`row.get("href")`). -/
structure Row where
  selectAll : String → List Element
  tagName : String
  href : Option String

/-- `row.select_one(sel)`: first match or `None`. -/
def selectOne (row : Row) (sel : String) : Option Element :=
  (row.selectAll sel).head?

/-- Per-site configuration, with the keys `monitor.py` reads
(`site["..."]` / `site.get("...", default)`). -/
structure Site where
  name : String
  url : String
  base_url : Option String := none
  list_selector : String
  title_selector : Option String := none
  link_selector : Option String := none
  date_selector : Option String := none
  skip_if_selector : List String := []
  max_items : Option Nat := none

/-- `site.get("max_items", 20)`. -/
def keepOf (site : Site) : Nat :=
  site.max_items.getD 20

/-- `textnorm`: `re.sub(r"\s+", " ", s).strip()` — collapse whitespace
runs to single spaces and trim. -/
def textnorm (s : String) : String :=
  " ".intercalate ((s.split Char.isWhitespace).filter (fun t => !t.isEmpty))

/-- Does `n` occur as a contiguous run inside the second list? -/
def substrAux (n : List Char) : List Char → Bool
  | [] => n.isEmpty
  | c :: cs => n.isPrefixOf (c :: cs) || substrAux n cs

/-- Python substring test `needle in hay`. -/
def substrOf (needle hay : String) : Bool :=
  substrAux needle.toList hay.toList

/-- Replace every non-overlapping occurrence of `pat` (scanning left to
right) by `rep`; the fuel argument bounds the recursion and is set to the
input length, which one character of progress per step never exceeds. -/
def replFuel (pat rep : List Char) : Nat → List Char → List Char
  | 0, l => l
  | _ + 1, [] => []
  | n + 1, c :: cs =>
    if !pat.isEmpty && pat.isPrefixOf (c :: cs) then
      rep ++ replFuel pat rep n ((c :: cs).drop pat.length)
    else c :: replFuel pat rep n cs

/-- Python `s.replace(pat, rep)` for nonempty `pat`. -/
def pyReplace (s pat rep : String) : String :=
  String.mk (replFuel pat.toList rep.toList s.toList.length s.toList)

/-- Python `s.strip()`: trim whitespace from both ends. -/
def pyTrim (s : String) : String :=
  String.mk
    (((s.toList.dropWhile Char.isWhitespace).reverse.dropWhile Char.isWhitespace).reverse)

/-- A double quote (34) or single quote (39), the characters stripped by
`text.strip("'\"")` in `should_skip_row`. -/
def isQuoteChar (c : Char) : Bool :=
  c.toNat == 34 || c.toNat == 39

/-- A closing parenthesis, the character stripped by `text.rstrip(")")`. -/
def isCloseParen (c : Char) : Bool :=
  c.toNat == 41

/-- Python `s.rstrip(")")`: drop every trailing `)`. -/
def pyRstripParens (s : String) : String :=
  String.mk ((s.toList.reverse.dropWhile isCloseParen).reverse)

/-- Python `s.strip("'\"")`: drop leading and trailing quote characters. -/
def pyStripQuotes (s : String) : String :=
  String.mk (((s.toList.dropWhile isQuoteChar).reverse.dropWhile isQuoteChar).reverse)

/-- Split at the first occurrence of the pattern `pat`: `some (before,
after)` when it occurs, `none` otherwise; `acc` holds the reversed prefix
scanned so far. -/
def splitFirstAux (pat : List Char) (acc : List Char) :
    List Char → Option (List Char × List Char)
  | [] => none
  | c :: cs =>
    if pat.isPrefixOf (c :: cs) then some (acc.reverse, (c :: cs).drop pat.length)
    else splitFirstAux pat (c :: acc) cs

/-- Python `sel.split(":contains(", 1)` guarded by `":contains(" in sel`:
`some (before, after)` at the first occurrence, `none` when absent. -/
def splitContainsRule (sel : String) : Option (String × String) :=
  (splitFirstAux ":contains(".toList [] sel.toList).map
    (fun p => (String.mk p.1, String.mk p.2))

/-- `should_skip_row(row, site)`: a rule `"sel:contains(text)"` skips the
row when an element matching `sel` contains `text`; a plain rule skips the
row when `select_one` finds a match. -/
def shouldSkipRow (site : Site) (row : Row) : Bool :=
  site.skip_if_selector.any fun sel =>
    match splitContainsRule sel with
    | some (baseSel, rawText) =>
        let text := pyStripQuotes (pyRstripParens rawText)
        (row.selectAll baseSel).any fun el => substrOf text el.text
    | none => (selectOne row sel).isSome

/-- `extract_date(row, site)`: among elements matching `date_selector`,
prefer the first whose normalized text contains "작성일" (label and colons
stripped, trimmed); if that yields nothing truthy, fall back to the first
element's normalized text; `None` when the selector is absent or matches
nothing. -/
def extract_date (site : Site) (row : Row) : Option String :=
  match site.date_selector with
  | none => none
  | some sel =>
    let dlist := row.selectAll sel
    let d0 : Option String :=
      (dlist.find? (fun d => substrOf "작성일" (textnorm d.text))).map
        (fun d => pyTrim (pyReplace (pyReplace (textnorm d.text) "작성일" "") ":" ""))
    let falsy : Bool :=
      match d0 with
      | none => true
      | some s => s.isEmpty
    match dlist with
    | [] => d0
    | d :: _ => if falsy then some (textnorm d.text) else d0

/-- A transient extracted record: title, resolved link (absent when no
href was found) and date text. -/
structure Record where
  title : String
  link : Option String
  date_text : Option String
deriving Repr, DecidableEq

/-- Row extraction without the skip-rule check (the loop body of
`parse_and_notify` from the title lookup onward).  `uj` models
`urllib.parse.urljoin`, an external library function. -/
def extractRowCore (site : Site) (uj : String → String → String) (row : Row) :
    Option Record :=
  match selectOne row (site.title_selector.getD "a") with
  | none => none
  | some titleEl =>
    let title := textnorm titleEl.text
    let linkEl := selectOne row (site.link_selector.getD "a")
    let href0 : String :=
      match linkEl with
      | none => ""
      | some el => el.href.getD ""
    let href1 : String :=
      if href0 = "" && row.tagName == "a" then row.href.getD "" else href0
    let link : Option String :=
      if href1 = "" then none else some (uj (site.base_url.getD site.url) href1)
    some { title := title, link := link, date_text := extract_date site row }

/-- Full per-row extraction: skip rules first, then title/link/date. -/
def extractRow (site : Site) (uj : String → String → String) (row : Row) :
    Option Record :=
  if shouldSkipRow site row then none else extractRowCore site uj row

/-- The f-string rendering of the link in `f"{link}|{date_text or ''}"`:
Python prints `None` for an absent link. -/
def renderLink : Option String → String
  | none => "None"
  | some s => s

/-- `date_text or ''`: empty string when the date is absent. -/
def dateOrEmpty : Option String → String
  | none => ""
  | some s => s

/-- `key = f"{link}|{date_text or ''}"`. -/
def dedupKey (r : Record) : String :=
  renderLink r.link ++ "|" ++ dateOrEmpty r.date_text

/-- `dict.fromkeys`: deduplicate keeping the first occurrence of each key;
`seen` accumulates the keys already emitted. -/
def dedupAux (seen : List String) : List String → List String
  | [] => []
  | x :: xs => if x ∈ seen then dedupAux seen xs else x :: dedupAux (x :: seen) xs

/-- `list(dict.fromkeys(l))`. -/
def pyDictFromKeys (l : List String) : List String :=
  dedupAux [] l

/-- Python `l[-k:]`: the last `k` entries — except that `l[-0:]` is the
whole list. -/
def pySliceLast (k : Nat) (l : List String) : List String :=
  if k = 0 then l else l.drop (l.length - k)

/-- Lines 199–201 of `monitor.py`:
`state[name] = list(dict.fromkeys(existing + new_ids))[-keep:]`. -/
def updateState (keep : Nat) (entry newIds : List String) : List String :=
  pySliceLast keep (pyDictFromKeys (entry ++ newIds))

/-- Result of one `parse_and_notify` call for one site: the returned new
count, the keys appended (`new_ids`), the records passed to
`discord_post` (empty under `INIT_MODE`), the site's state entry
afterwards and whether the entry was (re)assigned at all (`items` empty
returns early, before the state update). -/
structure RunResult where
  newCount : Nat
  newIds : List String
  delivered : List Record
  stateEntry : List String
  stateUpdated : Bool
deriving Repr

/-- The records extracted from the first `max_items` rows, in order. -/
def recsOf (site : Site) (uj : String → String → String) (items : List Row) :
    List Record :=
  (items.take (keepOf site)).filterMap (extractRow site uj)

/-- `parse_and_notify(site, state)` for one site, given the rows matching
`list_selector` (`items`) and the site's current state entry.  The
previously-seen set is fixed at entry to the loop and not extended as new
keys are discovered. -/
def parseAndNotify (site : Site) (uj : String → String → String)
    (initMode : Bool) (items : List Row) (entry : List String) : RunResult :=
  match items with
  | [] => ⟨0, [], [], entry, false⟩
  | _ :: _ =>
    let fresh := (recsOf site uj items).filter
      (fun r => decide (dedupKey r ∉ entry))
    let newIds := fresh.map dedupKey
    ⟨newIds.length, newIds, if initMode then [] else fresh,
      updateState (keepOf site) entry newIds, true⟩

/-- Outcome of `fetch`: the value returned or the exception raised
(`.error none` is the degenerate `raise None` reachable only with
`retries=0`), the sequence of `time.sleep` durations, and the number of
HTTP attempts made. -/
structure FetchOut (E : Type) where
  result : Except (Option E) String
  sleeps : List ℚ
  tries : Nat
deriving Repr

/-- The retry loop of `fetch`: `oracle i` is the outcome of the `i`-th
`SESSION.get`; on failure the code records the error, sleeps
`backoff * (i + 1)` and tries again while fuel remains. -/
def fetchLoop (b : ℚ) (oracle : Nat → Except E String) :
    Nat → Nat → Option E → FetchOut E
  | 0, _, last => ⟨.error last, [], 0⟩
  | n + 1, i, _ =>
    match oracle i with
    | .ok s => ⟨.ok s, [], 1⟩
    | .error e =>
      let r := fetchLoop b oracle n (i + 1) (some e)
      ⟨r.result, b * ((i + 1 : Nat) : ℚ) :: r.sleeps, r.tries + 1⟩

/-- `fetch(url, retries, backoff)` given the per-attempt outcomes. -/
def fetchModel (retries : Nat) (b : ℚ) (oracle : Nat → Except E String) :
    FetchOut E :=
  fetchLoop b oracle retries 0 none

/-- One HTTP response to a webhook POST: status code and the
`retry_after` value parsed from the body (`none` when the body is
unparsable or the field is missing, in which case the code uses `1.0`). -/
structure Resp where
  status : Nat
  retryAfter : Option ℚ
deriving Repr, DecidableEq

/-- Line 89 of `monitor.py`:
`resp.status_code == 204 or resp.status_code < 300`. -/
def isSuccessStatus (code : Nat) : Bool :=
  code == 204 || code < 300

/-- Outcome of `discord_post`: whether a success response was seen, the
`time.sleep` durations performed, and the number of POST attempts. -/
structure PostOut where
  ok : Bool
  sleeps : List ℚ
  attempts : Nat
deriving Repr, DecidableEq

/-- The retry loop of `discord_post`: success sleeps `0.7` and returns;
a 429 sleeps `retry_after + 0.2` (default `retry_after = 1.0`) and
retries; any other status logs, sleeps `0.8` and retries; exhausting the
attempt budget gives up. -/
def discordLoop (oracle : Nat → Resp) : Nat → Nat → PostOut
  | 0, _ => ⟨false, [], 0⟩
  | n + 1, i =>
    let resp := oracle i
    if isSuccessStatus resp.status then ⟨true, [(7 : ℚ) / 10], 1⟩
    else if resp.status = 429 then
      let r := discordLoop oracle n (i + 1)
      ⟨r.ok, (resp.retryAfter.getD 1 + (2 : ℚ) / 10) :: r.sleeps, r.attempts + 1⟩
    else
      let r := discordLoop oracle n (i + 1)
      ⟨r.ok, (8 : ℚ) / 10 :: r.sleeps, r.attempts + 1⟩

/-- `discord_post(..., max_retries=5)` given the per-attempt responses. -/
def discordPost (oracle : Nat → Resp) : PostOut :=
  discordLoop oracle 5 0

/-- Persisted state: mapping from site name to its key sequence
(`state.get(name, [])` for absent names). -/
abbrev StateMap := String → List String

/-- Pointwise dictionary assignment `state[n] = v`. -/
def updateFn (st : StateMap) (n : String) (v : List String) : StateMap :=
  fun m => if m = n then v else st m

/-- One iteration of the loop in `main`: a site whose fetch raised leaves
state and total untouched (the exception is caught and logged); otherwise
`parse_and_notify` runs, assigning the site's entry exactly when it did
not return early, and its count is added to the running total. -/
def siteStep (uj : String → String → String) (initMode : Bool)
    (acc : StateMap × Nat) (p : Site × Except String (List Row)) :
    StateMap × Nat :=
  match p.2 with
  | .error _ => acc
  | .ok items =>
    let r := parseAndNotify p.1 uj initMode items (acc.1 p.1.name)
    (if r.stateUpdated then updateFn acc.1 p.1.name r.stateEntry else acc.1,
      acc.2 + r.newCount)

/-- The site loop of `main`, accumulating state and the total new count. -/
def sitesFold (uj : String → String → String) (initMode : Bool)
    (sites : List (Site × Except String (List Row))) (st : StateMap)
    (tot : Nat) : StateMap × Nat :=
  sites.foldl (siteStep uj initMode) (st, tot)

/-- The error lines printed by `main` for sites whose processing raised. -/
def mainErrors (sites : List (Site × Except String (List Row))) :
    List String :=
  sites.filterMap fun p =>
    match p.2 with
    | .error e => some (p.1.name ++ ": " ++ e)
    | .ok _ => none

/-- Result of one `main` run: final in-memory state, total new count,
logged per-site errors, and the states handed to `save_state`. -/
structure MainResult where
  finalState : StateMap
  totalNew : Nat
  errors : List String
  persisted : List StateMap

/-- `main()`: iterate all sites (each in its own try/except), then call
`save_state(state)` exactly once on the final mapping. -/
def mainLoop (uj : String → String → String) (initMode : Bool)
    (sites : List (Site × Except String (List Row))) (state0 : StateMap) :
    MainResult :=
  let p := sitesFold uj initMode sites state0 0
  ⟨p.1, p.2, mainErrors sites, [p.1]⟩

/-- The `fresh` list inside `parseAndNotify`, for reasoning about it. -/
def freshOf (site : Site) (uj : String → String → String) (items : List Row)
    (entry : List String) : List Record :=
  (recsOf site uj items).filter (fun r => decide (dedupKey r ∉ entry))

/-- State invariant of claim C3: no duplicates, bounded length. -/
def stateInv (keep : Nat) (l : List String) : Prop :=
  l.Nodup ∧ l.length ≤ keep

/-- Iterated per-site runs: fold `parse_and_notify` over successive pages
(the markup seen at each run), threading the site's state entry. -/
def runsFold (site : Site) (uj : String → String → String) (initMode : Bool)
    (pages : List (List Row)) (entry : List String) : List String :=
  pages.foldl (fun e items => (parseAndNotify site uj initMode items e).stateEntry)
    entry

/-- Is a per-site outcome a successful fetch? -/
def isOkB : Except String (List Row) → Bool
  | .ok _ => true
  | .error _ => false

/-- The dedup key as the spec words it (§4.2 step 7): with `id_strategy`
`link` and a link present, the link string alone; otherwise title and
date joined by a separator.  Stated for comparison with `dedupKey`, the
key the code computes. -/
def specDedupKey (id_strategy sep : String) (r : Record) : String :=
  if id_strategy = "link" ∧ r.link.isSome then r.link.getD ""
  else r.title ++ sep ++ dateOrEmpty r.date_text

/-- Truncation to the last `k` entries as the spec words it (§4.3):
`takeLastSpec 0 l = []`, unlike Python's `l[-0:]`. -/
def takeLastSpec (k : Nat) (l : List String) : List String :=
  l.drop (l.length - k)

/-- The state update as the spec words it (§4.3): concatenate, dedup
keeping first occurrences, keep only the last `max_items` entries. -/
def specUpdateState (keep : Nat) (entry newIds : List String) : List String :=
  takeLastSpec keep (pyDictFromKeys (entry ++ newIds))

/-- A trivial link resolver standing in for `urllib.parse.urljoin` in
concrete test fixtures: returns the href unchanged. -/
def ujId : String → String → String := fun _ h => h

/-- Build a concrete row from a selector table. -/
def mkRow (sels : List (String × List Element)) (tag : String)
    (h : Option String) : Row :=
  { selectAll := fun s => ((sels.find? (fun p => p.1 == s)).map Prod.snd).getD [],
    tagName := tag, href := h }

/-- Fixture: a row whose title anchor has href `ka`. -/
def rowKa : Row := mkRow [("a", [⟨"t1", some "ka"⟩])] "tr" none

/-- Fixture: a row whose title anchor has href `kb`. -/
def rowKb : Row := mkRow [("a", [⟨"t2", some "kb"⟩])] "tr" none

/-- Fixture: a site with `max_items` 2 and no optional rules. -/
def siteMaxTwo : Site :=
  { name := "s", url := "u", list_selector := "li", max_items := some 2 }

/-- Fixture: a site with one plain skip rule on `strong`. -/
def siteSkip : Site :=
  { name := "s", url := "u", list_selector := "li",
    skip_if_selector := ["strong"] }

/-- Fixture: a pinned row (matches the `strong` skip rule) whose anchor
href is `x`. -/
def rowPinned : Row :=
  mkRow [("strong", [⟨"pin", none⟩]), ("a", [⟨"tP", some "x"⟩])] "tr" none

/-- Fixture: a plain row whose anchor href is also `x`. -/
def rowPlainX : Row := mkRow [("a", [⟨"tQ", some "x"⟩])] "tr" none

/-- Fixture: a second plain row with href `x` but a different title. -/
def rowPlainX2 : Row := mkRow [("a", [⟨"tR", some "x"⟩])] "tr" none

/-- Fixture: a site with every optional field defaulted. -/
def siteDflt : Site := { name := "s", url := "u", list_selector := "li" }

/-- Fixture: a site list for `main` with one failing and one working
site. -/
def siteBad : Site := { name := "bad", url := "u", list_selector := "li" }

/-- Fixture: the working companion of `siteBad`. -/
def siteGood : Site := { name := "good", url := "u", list_selector := "li" }

/-- Fixture: fetch oracle failing on attempts 0 and 2, succeeding on 1. -/
def oracle3 : Nat → Except Nat String :=
  fun n => if n = 1 then Except.ok "html" else Except.error n

/-- Fixture: webhook oracle answering 429 with `retry_after = 2` first,
then 204. -/
def oracle429 : Nat → Resp :=
  fun i => if i = 0 then ⟨429, some 2⟩ else ⟨204, none⟩

/-- Fixture: a two-site run where the first site's fetch raised. -/
def sitesFix : List (Site × Except String (List Row)) :=
  [(siteBad, Except.error "boom"), (siteGood, Except.ok [rowKa])]

theorem mem_dedupAux {a : String} {seen l : List String} :
    a ∈ dedupAux seen l ↔ a ∈ l ∧ a ∉ seen := by
  induction l generalizing seen with
  | nil => simp [dedupAux]
  | cons x xs ih =>
    by_cases hx : x ∈ seen
    · simp only [dedupAux, if_pos hx, ih, List.mem_cons]
      constructor
      · rintro ⟨h1, h2⟩; exact ⟨Or.inr h1, h2⟩
      · rintro ⟨h1 | h1, h2⟩
        · exact absurd (h1 ▸ hx) h2
        · exact ⟨h1, h2⟩
    · simp only [dedupAux, if_neg hx, List.mem_cons, ih]
      constructor
      · rintro (rfl | ⟨h1, h2⟩)
        · exact ⟨Or.inl rfl, hx⟩
        · exact ⟨Or.inr h1, fun hs => h2 (Or.inr hs)⟩
      · rintro ⟨rfl | h1, h2⟩
        · exact Or.inl rfl
        · by_cases hax : a = x
          · exact Or.inl hax
          · exact Or.inr ⟨h1, by simp [hax, h2]⟩

theorem nodup_dedupAux (seen l : List String) : (dedupAux seen l).Nodup := by
  induction l generalizing seen with
  | nil => simp [dedupAux]
  | cons x xs ih =>
    by_cases hx : x ∈ seen
    · simpa [dedupAux, if_pos hx] using ih seen
    · simp only [dedupAux, if_neg hx, List.nodup_cons]
      refine ⟨fun hmem => ?_, ih (x :: seen)⟩
      exact (mem_dedupAux.mp hmem).2 (List.mem_cons_self x seen)

theorem dedupAux_congr {s₁ s₂ l : List String}
    (h : ∀ a, a ∈ s₁ ↔ a ∈ s₂) : dedupAux s₁ l = dedupAux s₂ l := by
  induction l generalizing s₁ s₂ with
  | nil => simp [dedupAux]
  | cons x xs ih =>
    by_cases hx : x ∈ s₁
    · rw [dedupAux, dedupAux, if_pos hx, if_pos ((h x).mp hx)]
      exact ih h
    · rw [dedupAux, dedupAux, if_neg hx, if_neg (fun hc => hx ((h x).mpr hc))]
      refine congrArg (x :: ·) (ih fun a => ?_)
      simp only [List.mem_cons, h a]

theorem dedupAux_append (seen A B : List String) :
    dedupAux seen (A ++ B) = dedupAux seen A ++ dedupAux (A ++ seen) B := by
  induction A generalizing seen with
  | nil => simp [dedupAux]
  | cons x A' ih =>
    by_cases hx : x ∈ seen
    · rw [List.cons_append, dedupAux, if_pos hx, dedupAux, if_pos hx, ih]
      refine congrArg _ (dedupAux_congr fun a => ?_)
      simp only [List.cons_append, List.mem_cons, List.mem_append]
      constructor
      · tauto
      · rintro (rfl | h | h) <;> tauto
    · rw [List.cons_append, dedupAux, if_neg hx, dedupAux, if_neg hx, ih,
        List.cons_append]
      refine congrArg (x :: ·) (congrArg _ (dedupAux_congr fun a => ?_))
      simp only [List.cons_append, List.mem_cons, List.mem_append]
      tauto

theorem mem_pyDictFromKeys {a : String} {l : List String} :
    a ∈ pyDictFromKeys l ↔ a ∈ l := by
  simp [pyDictFromKeys, mem_dedupAux]

theorem nodup_pyDictFromKeys (l : List String) : (pyDictFromKeys l).Nodup :=
  nodup_dedupAux [] l

theorem pySliceLast_zero (l : List String) : pySliceLast 0 l = l := by
  simp [pySliceLast]

theorem length_pySliceLast_le {k : Nat} (hk : 1 ≤ k) (l : List String) :
    (pySliceLast k l).length ≤ k := by
  have h0 : k ≠ 0 := Nat.one_le_iff_ne_zero.mp hk
  simp only [pySliceLast, if_neg h0, List.length_drop]
  omega

theorem pySliceLast_of_le {k : Nat} {l : List String} (h : l.length ≤ k) :
    pySliceLast k l = l := by
  rcases Nat.eq_zero_or_pos k with rfl | hk
  · exact pySliceLast_zero l
  · have h0 : k ≠ 0 := Nat.pos_iff_ne_zero.mp hk
    simp only [pySliceLast, if_neg h0]
    rw [Nat.sub_eq_zero_of_le h, List.drop_zero]

theorem nodup_pySliceLast {l : List String} (k : Nat) (h : l.Nodup) :
    (pySliceLast k l).Nodup := by
  by_cases h0 : k = 0
  · simpa [pySliceLast, h0]
  · simp only [pySliceLast, if_neg h0]
    exact (List.drop_sublist _ l).nodup h

theorem mem_of_mem_pySliceLast {a : String} {k : Nat} {l : List String}
    (h : a ∈ pySliceLast k l) : a ∈ l := by
  by_cases h0 : k = 0
  · simpa [pySliceLast, h0] using h
  · simp only [pySliceLast, if_neg h0] at h
    exact List.mem_of_mem_drop h

theorem nodup_updateState (keep : Nat) (entry newIds : List String) :
    (updateState keep entry newIds).Nodup :=
  nodup_pySliceLast keep (nodup_pyDictFromKeys _)

theorem length_updateState_le {keep : Nat} (hk : 1 ≤ keep)
    (entry newIds : List String) : (updateState keep entry newIds).length ≤ keep :=
  length_pySliceLast_le hk _

theorem mem_of_mem_updateState {a : String} {keep : Nat}
    {entry newIds : List String} (h : a ∈ updateState keep entry newIds) :
    a ∈ entry ∨ a ∈ newIds := by
  have := mem_of_mem_pySliceLast h
  have := mem_pyDictFromKeys.mp this
  simpa [List.mem_append] using this

theorem parseAndNotify_nil (site : Site) (uj : String → String → String)
    (initMode : Bool) (entry : List String) :
    parseAndNotify site uj initMode [] entry = ⟨0, [], [], entry, false⟩ :=
  rfl

theorem parseAndNotify_cons (site : Site) (uj : String → String → String)
    (initMode : Bool) (row : Row) (rest : List Row) (entry : List String) :
    parseAndNotify site uj initMode (row :: rest) entry =
      ⟨(freshOf site uj (row :: rest) entry).length,
        (freshOf site uj (row :: rest) entry).map dedupKey,
        if initMode then [] else freshOf site uj (row :: rest) entry,
        updateState (keepOf site) entry
          ((freshOf site uj (row :: rest) entry).map dedupKey),
        true⟩ := by
  simp only [parseAndNotify, freshOf, List.length_map]

theorem mem_freshOf_iff {site : Site} {uj : String → String → String}
    {items : List Row} {entry : List String} {r : Record} :
    r ∈ freshOf site uj items entry ↔
      r ∈ recsOf site uj items ∧ dedupKey r ∉ entry := by
  simp [freshOf, List.mem_filter]

/-- Keys appended during a run were absent from the consulted state. -/
theorem newIds_fresh {site : Site} {uj : String → String → String}
    {initMode : Bool} {items : List Row} {entry : List String} {k : String}
    (h : k ∈ (parseAndNotify site uj initMode items entry).newIds) :
    k ∉ entry := by
  cases items with
  | nil => simp [parseAndNotify_nil] at h
  | cons row rest =>
    rw [parseAndNotify_cons] at h
    obtain ⟨r, hr, rfl⟩ := List.mem_map.mp h
    exact (mem_freshOf_iff.mp hr).2

/-- Every extracted record comes from a non-skipped row of the page with a
title match, via `extractRowCore`. -/
theorem mem_recsOf {site : Site} {uj : String → String → String}
    {items : List Row} {r : Record} (h : r ∈ recsOf site uj items) :
    ∃ row ∈ items, shouldSkipRow site row = false ∧
      extractRowCore site uj row = some r := by
  obtain ⟨row, hrow, hex⟩ := List.mem_filterMap.mp h
  refine ⟨row, List.mem_of_mem_take hrow, ?_⟩
  by_cases hs : shouldSkipRow site row
  · simp [extractRow, hs] at hex
  · simpa [extractRow, hs] using hex

/-- Delivered records come from non-skipped rows and were fresh. -/
theorem mem_delivered {site : Site} {uj : String → String → String}
    {initMode : Bool} {items : List Row} {entry : List String} {r : Record}
    (h : r ∈ (parseAndNotify site uj initMode items entry).delivered) :
    (∃ row ∈ items, shouldSkipRow site row = false ∧
      extractRowCore site uj row = some r) ∧ dedupKey r ∉ entry := by
  cases items with
  | nil => simp [parseAndNotify_nil] at h
  | cons row rest =>
    rw [parseAndNotify_cons] at h
    have hr : r ∈ freshOf site uj (row :: rest) entry := by
      cases initMode with
      | true => simp at h
      | false => simpa using h
    obtain ⟨hrec, hkey⟩ := mem_freshOf_iff.mp hr
    exact ⟨mem_recsOf hrec, hkey⟩

/-- Every key stored after a run is either an old key or the key of some
non-skipped, title-bearing row of the page. -/
theorem mem_stateEntry {site : Site} {uj : String → String → String}
    {initMode : Bool} {items : List Row} {entry : List String} {k : String}
    (h : k ∈ (parseAndNotify site uj initMode items entry).stateEntry) :
    k ∈ entry ∨ ∃ row ∈ items, shouldSkipRow site row = false ∧
      ∃ r, extractRowCore site uj row = some r ∧ dedupKey r = k := by
  cases items with
  | nil => left; simpa [parseAndNotify_nil] using h
  | cons row rest =>
    rw [parseAndNotify_cons] at h
    rcases mem_of_mem_updateState h with hold | hnew
    · exact Or.inl hold
    · obtain ⟨r, hr, rfl⟩ := List.mem_map.mp hnew
      obtain ⟨row', hrow', hskip, hcore⟩ := mem_recsOf (mem_freshOf_iff.mp hr).1
      exact Or.inr ⟨row', hrow', hskip, r, hcore, rfl⟩

/-- One `parse_and_notify` call preserves the state invariant. -/
theorem stateInv_preserved (site : Site) (uj : String → String → String)
    (initMode : Bool) (items : List Row) {entry : List String}
    (h : stateInv (keepOf site) entry) :
    stateInv (keepOf site) (parseAndNotify site uj initMode items entry).stateEntry := by
  cases items with
  | nil => simpa [parseAndNotify_nil] using h
  | cons row rest =>
    rw [parseAndNotify_cons]
    rcases Nat.eq_zero_or_pos (keepOf site) with h0 | h1
    · have hentry : entry = [] := List.length_eq_zero.mp (Nat.le_zero.mp (h0 ▸ h.2))
      have hrecs : recsOf site uj (row :: rest) = [] := by
        simp [recsOf, h0]
      subst hentry
      refine ⟨nodup_updateState _ _ _, ?_⟩
      simp [freshOf, hrecs, updateState, pyDictFromKeys, dedupAux, pySliceLast, h0]
    · exact ⟨nodup_updateState _ _ _, length_updateState_le h1 _ _⟩

theorem stateInv_runsFold (site : Site) (uj : String → String → String)
    (initMode : Bool) (pages : List (List Row)) {entry : List String}
    (h : stateInv (keepOf site) entry) :
    stateInv (keepOf site) (runsFold site uj initMode pages entry) := by
  induction pages generalizing entry with
  | nil => exact h
  | cons p ps ih => exact ih (stateInv_preserved site uj initMode p h)

/-- When the deduplicated concatenation fits within the retention bound,
the first run's update stores every key the page produced, so an
immediately repeated run on the same markup reports zero new items. -/
theorem secondRun_zero (site : Site) (uj : String → String → String)
    (initMode initMode' : Bool) (items : List Row) (entry : List String)
    (h : (pyDictFromKeys
        (entry ++ (parseAndNotify site uj initMode items entry).newIds)).length ≤
      keepOf site) :
    (parseAndNotify site uj initMode' items
      (parseAndNotify site uj initMode items entry).stateEntry).newCount = 0 := by
  cases items with
  | nil => rfl
  | cons row rest =>
    rw [parseAndNotify_cons] at h ⊢
    rw [parseAndNotify_cons]
    set N := (freshOf site uj (row :: rest) entry).map dedupKey with hN
    have hS : updateState (keepOf site) entry N = pyDictFromKeys (entry ++ N) :=
      pySliceLast_of_le h
    rw [hS]
    have hempty : freshOf site uj (row :: rest) (pyDictFromKeys (entry ++ N)) = [] := by
      refine List.filter_eq_nil_iff.mpr fun r hr => ?_
      simp only [decide_eq_true_eq, Decidable.not_not]
      rw [mem_pyDictFromKeys, List.mem_append]
      by_cases he : dedupKey r ∈ entry
      · exact Or.inl he
      · refine Or.inr (hN ▸ List.mem_map.mpr ⟨r, ?_, rfl⟩)
        exact mem_freshOf_iff.mpr ⟨hr, he⟩
    simp [hempty]

theorem length_dedupAux_le (seen l : List String) :
    (dedupAux seen l).length ≤ l.length := by
  induction l generalizing seen with
  | nil => simp [dedupAux]
  | cons x xs ih =>
    by_cases hx : x ∈ seen
    · simp only [dedupAux, if_pos hx]
      exact Nat.le_succ_of_le (ih seen)
    · simp only [dedupAux, if_neg hx, List.length_cons]
      exact Nat.succ_le_succ (ih (x :: seen))

theorem length_recsOf_le (site : Site) (uj : String → String → String)
    (items : List Row) : (recsOf site uj items).length ≤ keepOf site := by
  calc (recsOf site uj items).length ≤ (items.take (keepOf site)).length :=
        List.length_filterMap_le _ _
    _ ≤ keepOf site := by rw [List.length_take]; exact Nat.min_le_left _ _

/-- Within one run the consulted seen-set is not extended, so every row
whose key is fresh is delivered and counted — duplicates included — while
the stored sequence keeps that key exactly once. -/
theorem duplicates_within_run (site : Site) (uj : String → String → String)
    (items : List Row) (entry : List String) (k : String)
    (hk : k ∉ entry)
    (hd : 2 ≤ ((recsOf site uj items).filter
      (fun r => decide (dedupKey r = k))).length) :
    2 ≤ ((parseAndNotify site uj false items entry).delivered.filter
        (fun r => decide (dedupKey r = k))).length ∧
    2 ≤ (parseAndNotify site uj false items entry).newCount ∧
    (parseAndNotify site uj false items entry).stateEntry.count k = 1 := by
  cases items with
  | nil => simp [recsOf] at hd
  | cons row rest =>
    rw [parseAndNotify_cons]
    set recs := recsOf site uj (row :: rest) with hrecs
    have hfilter : (freshOf site uj (row :: rest) entry).filter
        (fun r => decide (dedupKey r = k)) =
        recs.filter (fun r => decide (dedupKey r = k)) := by
      rw [freshOf, List.filter_filter]
      refine List.filter_congr fun r _ => ?_
      by_cases hkey : dedupKey r = k
      · simp [hkey, hk]
      · simp [hkey]
    have hdel : 2 ≤ ((freshOf site uj (row :: rest) entry).filter
        (fun r => decide (dedupKey r = k))).length := by rw [hfilter]; exact hd
    refine ⟨by simpa using hdel, ?_, ?_⟩
    · have h2f : 2 ≤ (freshOf site uj (row :: rest) entry).length :=
        le_trans hdel (List.length_filter_le _ _)
      simpa using h2f
    · -- the key is stored exactly once
      set N := (freshOf site uj (row :: rest) entry).map dedupKey with hN
      have hkN : k ∈ N := by
        have : 0 < ((freshOf site uj (row :: rest) entry).filter
            (fun r => decide (dedupKey r = k))).length := by omega
        obtain ⟨r, hrmem⟩ := List.exists_mem_of_length_pos this
        have h1 := List.mem_of_mem_filter hrmem
        have h2 : dedupKey r = k := by
          simpa using List.of_mem_filter hrmem
        exact hN ▸ List.mem_map.mpr ⟨r, h1, h2⟩
      have hNlen : N.length ≤ keepOf site := by
        calc N.length = (freshOf site uj (row :: rest) entry).length :=
              List.length_map _ _
          _ ≤ recs.length := List.length_filter_le _ _
          _ ≤ keepOf site := hrecs ▸ length_recsOf_le site uj (row :: rest)
      set A := dedupAux ([] : List String) entry with hA
      set B := dedupAux entry N with hB
      have hsplit : pyDictFromKeys (entry ++ N) = A ++ B := by
        rw [pyDictFromKeys, dedupAux_append]
        rw [List.append_nil]
      have hkB : k ∈ B := hB ▸ mem_dedupAux.mpr ⟨hkN, hk⟩
      have hkA : k ∉ A := fun hmem => hk (mem_dedupAux.mp (hA ▸ hmem)).1
      have hBlen : B.length ≤ keepOf site :=
        le_trans (hB ▸ length_dedupAux_le entry N) hNlen
      have hkeep : 1 ≤ keepOf site := by
        have h2r : 2 ≤ recs.length :=
          le_trans hd (List.length_filter_le _ _)
        have := hrecs ▸ length_recsOf_le site uj (row :: rest)
        omega
      have hkeep0 : keepOf site ≠ 0 := by omega
      rw [updateState, hsplit, pySliceLast, if_neg hkeep0,
        List.drop_append_of_le_length (by rw [List.length_append]; omega),
        List.count_append]
      have hcA : (A.drop ((A ++ B).length - keepOf site)).count k = 0 :=
        List.count_eq_zero.mpr fun hmem => hkA (List.mem_of_mem_drop hmem)
      have hcB : B.count k = 1 :=
        List.count_eq_one_of_mem (hB ▸ nodup_dedupAux entry N) hkB
      rw [hcA, hcB]

theorem fetchLoop_tries_le {E : Type} (b : ℚ) (oracle : Nat → Except E String)
    (n i : Nat) (last : Option E) : (fetchLoop b oracle n i last).tries ≤ n := by
  induction n generalizing i last with
  | zero => simp [fetchLoop]
  | succ m ih =>
    rw [fetchLoop]
    cases oracle i with
    | ok s => exact Nat.succ_le_succ (Nat.zero_le m)
    | error e => exact Nat.succ_le_succ (ih (i + 1) (some e))

theorem fetchLoop_allFail {E : Type} (b : ℚ) (es : Nat → E) (n i : Nat)
    (last : Option E) :
    fetchLoop b (fun j => Except.error (es j)) n i last =
      ⟨.error (if n = 0 then last else some (es (i + n - 1))),
        (List.range n).map (fun kk => b * ((i + kk + 1 : Nat) : ℚ)), n⟩ := by
  induction n generalizing i last with
  | zero => simp [fetchLoop]
  | succ m ih =>
    rw [fetchLoop]
    simp only [ih]
    have hres : (Except.error (α := String)
        (if m = 0 then (some (es i) : Option E) else some (es (i + 1 + m - 1)))) =
        Except.error (some (es (i + (m + 1) - 1))) := by
      rcases Nat.eq_zero_or_pos m with rfl | hm
      · simp
      · rw [if_neg (by omega)]
        congr 3
        omega
    have hsl : b * ((i + 1 : Nat) : ℚ) ::
        (List.range m).map (fun kk => b * ((i + 1 + kk + 1 : Nat) : ℚ)) =
        (List.range (m + 1)).map (fun kk => b * ((i + kk + 1 : Nat) : ℚ)) := by
      rw [List.range_succ_eq_map, List.map_cons, List.map_map]
      refine congrArg₂ _ (by norm_num) ?_
      refine List.map_congr_left fun kk _ => ?_
      simp only [Function.comp]
      congr 2
      omega
    rw [hres, hsl, if_neg (Nat.succ_ne_zero m)]

theorem fetchLoop_firstSuccess {E : Type} (b : ℚ) (oracle : Nat → Except E String)
    (s : String) (j : Nat) :
    ∀ (n i : Nat) (last : Option E), j < n →
    (∀ kk, kk < j → ∃ e, oracle (i + kk) = Except.error e) →
    oracle (i + j) = Except.ok s →
    fetchLoop b oracle n i last =
      ⟨.ok s, (List.range j).map (fun kk => b * ((i + kk + 1 : Nat) : ℚ)), j + 1⟩ := by
  induction j with
  | zero =>
    intro n i last hn hfail hok
    obtain ⟨m, rfl⟩ := Nat.exists_eq_succ_of_ne_zero (by omega : n ≠ 0)
    rw [show i + 0 = i from rfl] at hok
    rw [fetchLoop, hok]
    simp
  | succ j ih =>
    intro n i last hn hfail hok
    obtain ⟨m, rfl⟩ := Nat.exists_eq_succ_of_ne_zero (by omega : n ≠ 0)
    obtain ⟨e, he⟩ := hfail 0 (Nat.succ_pos j)
    rw [show i + 0 = i from rfl] at he
    have hrec := ih m (i + 1) (some e) (by omega)
      (fun kk hkk => by
        obtain ⟨e', he'⟩ := hfail (kk + 1) (by omega)
        exact ⟨e', by rw [← he']; congr 1; omega⟩)
      (by rw [← hok]; congr 1; omega)
    rw [fetchLoop, he]
    simp only [hrec]
    have hsl : b * ((i + 1 : Nat) : ℚ) ::
        (List.range j).map (fun kk => b * ((i + 1 + kk + 1 : Nat) : ℚ)) =
        (List.range (j + 1)).map (fun kk => b * ((i + kk + 1 : Nat) : ℚ)) := by
      rw [List.range_succ_eq_map, List.map_cons, List.map_map]
      refine congrArg₂ _ (by norm_num) ?_
      refine List.map_congr_left fun kk _ => ?_
      simp only [Function.comp]
      congr 2
      omega
    rw [hsl]

theorem isSuccessStatus_iff (s : Nat) : isSuccessStatus s = true ↔ s < 300 := by
  simp only [isSuccessStatus, Bool.or_eq_true, beq_iff_eq, decide_eq_true_eq]
  omega

theorem discordLoop_attempts_le (oracle : Nat → Resp) (n i : Nat) :
    (discordLoop oracle n i).attempts ≤ n := by
  induction n generalizing i with
  | zero => simp [discordLoop]
  | succ m ih =>
    rw [discordLoop]
    by_cases h1 : isSuccessStatus (oracle i).status
    · simp only [if_pos h1]
      exact Nat.succ_le_succ (Nat.zero_le m)
    · by_cases h2 : (oracle i).status = 429
      · simp only [if_neg h1, if_pos h2]
        exact Nat.succ_le_succ (ih (i + 1))
      · simp only [if_neg h1, if_neg h2]
        exact Nat.succ_le_succ (ih (i + 1))

theorem discordLoop_429 (oracle : Nat → Resp) (n i : Nat)
    (h : (oracle i).status = 429) :
    discordLoop oracle (n + 1) i =
      ⟨(discordLoop oracle n (i + 1)).ok,
        ((oracle i).retryAfter.getD 1 + (2 : ℚ) / 10) ::
          (discordLoop oracle n (i + 1)).sleeps,
        (discordLoop oracle n (i + 1)).attempts + 1⟩ := by
  have hns : ¬ isSuccessStatus (oracle i).status := by
    rw [h]
    decide
  rw [discordLoop, if_neg hns, if_pos h]

theorem discordLoop_success (oracle : Nat → Resp) (n i : Nat)
    (h : isSuccessStatus (oracle i).status) :
    discordLoop oracle (n + 1) i = ⟨true, [(7 : ℚ) / 10], 1⟩ := by
  rw [discordLoop, if_pos h]

/-- Sites whose processing raised are skipped without touching the
accumulated state or total: folding over all sites equals folding over
the successful ones only. -/
theorem sitesFold_filter_ok (uj : String → String → String) (initMode : Bool)
    (sites : List (Site × Except String (List Row))) (st : StateMap) (tot : Nat) :
    sitesFold uj initMode sites st tot =
      sitesFold uj initMode (sites.filter (fun p => isOkB p.2)) st tot := by
  induction sites generalizing st tot with
  | nil => rfl
  | cons p rest ih =>
    match hp : p.2 with
    | .error e =>
      have hfilter : (p :: rest).filter (fun q => isOkB q.2) =
          rest.filter (fun q => isOkB q.2) := by
        simp [List.filter_cons, hp, isOkB]
      have hstep : siteStep uj initMode (st, tot) p = (st, tot) := by
        simp [siteStep, hp]
      rw [hfilter, sitesFold, List.foldl_cons, hstep, ← sitesFold, ih]
    | .ok items =>
      have hfilter : (p :: rest).filter (fun q => isOkB q.2) =
          p :: rest.filter (fun q => isOkB q.2) := by
        simp [List.filter_cons, hp, isOkB]
      rw [hfilter, sitesFold, sitesFold, List.foldl_cons, List.foldl_cons,
        ← sitesFold, ← sitesFold, ih]

theorem mainErrors_length (sites : List (Site × Except String (List Row))) :
    (mainErrors sites).length = (sites.filter (fun p => !isOkB p.2)).length := by
  induction sites with
  | nil => rfl
  | cons p rest ih =>
    match hp : p.2 with
    | .error e =>
      have h1 : mainErrors (p :: rest) = (p.1.name ++ ": " ++ e) :: mainErrors rest := by
        rw [mainErrors, List.filterMap_cons, hp, mainErrors]
      have h2 : (p :: rest).filter (fun q => !isOkB q.2) =
          p :: rest.filter (fun q => !isOkB q.2) := by
        rw [List.filter_cons, if_pos (by rw [hp]; rfl)]
      rw [h1, h2, List.length_cons, List.length_cons, ih]
    | .ok items =>
      have h1 : mainErrors (p :: rest) = mainErrors rest := by
        rw [mainErrors, List.filterMap_cons, hp, mainErrors]
      have h2 : (p :: rest).filter (fun q => !isOkB q.2) =
          rest.filter (fun q => !isOkB q.2) := by
        rw [List.filter_cons, if_neg (by rw [hp]; simp [isOkB])]
      rw [h1, h2, ih]

/-- The fold never touches the entry of a name owned by no listed site. -/
theorem sitesFold_preserve_name (uj : String → String → String)
    (initMode : Bool) (sites : List (Site × Except String (List Row)))
    (st : StateMap) (tot : Nat) (n : String)
    (h : n ∉ sites.map (fun p => p.1.name)) :
    (sitesFold uj initMode sites st tot).1 n = st n := by
  induction sites generalizing st tot with
  | nil => rfl
  | cons p rest ih =>
    simp only [List.map_cons, List.mem_cons, not_or] at h
    rw [sitesFold, List.foldl_cons, ← sitesFold]
    have hstep : (siteStep uj initMode (st, tot) p).1 n = st n := by
      rw [siteStep]
      cases p.2 with
      | error e => rfl
      | ok items =>
        simp only
        by_cases hupd : (parseAndNotify p.1 uj initMode items (st p.1.name)).stateUpdated
        · simp only [if_pos hupd, updateFn, if_neg h.1]
        · simp only [if_neg hupd]
    rw [ih _ _ h.2, hstep]

/-- With pairwise-distinct site names, a site whose fetch raised keeps its
state entry untouched by the whole run. -/
theorem sitesFold_error_entry (uj : String → String → String)
    (initMode : Bool) (sites : List (Site × Except String (List Row)))
    (st : StateMap) (tot : Nat)
    (hnames : (sites.map (fun p => p.1.name)).Nodup)
    {s : Site} {e : String} (hmem : (s, Except.error e) ∈ sites) :
    (sitesFold uj initMode sites st tot).1 s.name = st s.name := by
  induction sites generalizing st tot with
  | nil => simp at hmem
  | cons p rest ih =>
    simp only [List.map_cons, List.nodup_cons] at hnames
    rcases List.mem_cons.mp hmem with rfl | hmem'
    · rw [sitesFold, List.foldl_cons, ← sitesFold]
      have hstep : siteStep uj initMode (st, tot) (s, Except.error e) = (st, tot) := by
        simp [siteStep]
      rw [hstep]
      exact sitesFold_preserve_name uj initMode rest st tot s.name hnames.1
    · have hne : p.1.name ≠ s.name := by
        intro heq
        exact hnames.1 (heq ▸ List.mem_map.mpr ⟨(s, Except.error e), hmem', rfl⟩)
      rw [sitesFold, List.foldl_cons, ← sitesFold]
      have hstep : (siteStep uj initMode (st, tot) p).1 s.name = st s.name := by
        rw [siteStep]
        cases p.2 with
        | error e' => rfl
        | ok items =>
          simp only
          by_cases hupd : (parseAndNotify p.1 uj initMode items (st p.1.name)).stateUpdated
          · simp only [if_pos hupd, updateFn,
              if_neg (fun h => hne (Eq.symm h))]
          · simp only [if_neg hupd]
      have hrest := ih (siteStep uj initMode (st, tot) p).1
        (siteStep uj initMode (st, tot) p).2 hnames.2 hmem'
      calc (sitesFold uj initMode rest (siteStep uj initMode (st, tot) p).1
              (siteStep uj initMode (st, tot) p).2).1 s.name
          = (siteStep uj initMode (st, tot) p).1 s.name := hrest
        _ = st s.name := hstep

/-- Counterexample to claim C1: with a link present, the computed key is
not the link string alone (it always carries the `|` separator and the
date field), so the claimed `id_strategy = link` rule does not describe
the code; the code also never incorporates the title. -/
theorem C1_counterexample :
    dedupKey { title := "t", link := some "L", date_text := none } ≠
      specDedupKey "link" "|" { title := "t", link := some "L", date_text := none } ∧
    specDedupKey "link" "|" { title := "t", link := some "L", date_text := none } = "L" ∧
    dedupKey { title := "t", link := some "L", date_text := none } = "L|" := by
  decide

/-- Claim C1 (amended): the dedup key is always the rendered link (the
string `None` when the link is absent) and the date text (empty when
absent) joined by `|`; there is no `id_strategy` in the code and the
title never enters the key, so two records with identical links and
identical date texts always share a key. -/
theorem C1_dedup_key_amended (r r₁ r₂ : Record)
    (hl : r₁.link = r₂.link) (hd : r₁.date_text = r₂.date_text) :
    dedupKey r = renderLink r.link ++ "|" ++ dateOrEmpty r.date_text ∧
    dedupKey r₁ = dedupKey r₂ :=
  ⟨rfl, by simp only [dedupKey, hl, hd]⟩

/-- Witness for C1 at two concrete records differing only in title. -/
theorem C1_witness :
    ({ title := "a", link := some "L", date_text := some "d" } : Record).link =
      ({ title := "b", link := some "L", date_text := some "d" } : Record).link ∧
    ({ title := "a", link := some "L", date_text := some "d" } : Record).date_text =
      ({ title := "b", link := some "L", date_text := some "d" } : Record).date_text ∧
    (dedupKey { title := "a", link := some "L", date_text := some "d" } =
      renderLink (some "L") ++ "|" ++ dateOrEmpty (some "d") ∧
    dedupKey { title := "a", link := some "L", date_text := some "d" } =
      dedupKey { title := "b", link := some "L", date_text := some "d" }) :=
  ⟨rfl, rfl, C1_dedup_key_amended _ _ _ rfl rfl⟩

/-- Counterexample to claim C2: starting from state `[ka|, kc]` with a
two-item page producing keys `ka|` and `kb|` under `max_items = 2`, the
first run's truncation evicts `ka|` (still on the page), so the second
run on identical markup reports one new item, not zero. -/
theorem C2_counterexample :
    (parseAndNotify siteMaxTwo ujId false [rowKa, rowKb]
      (parseAndNotify siteMaxTwo ujId false [rowKa, rowKb]
        ["ka|", "kc"]).stateEntry).newCount = 1 := by
  decide

/-- Claim C2 (amended): a second run on unchanged markup and the state
produced by the first run yields zero new items, provided the first run's
state update did not truncate (the deduplicated concatenation of the
prior entry and the first run's new keys fits within `max_items`);
truncation can evict a key still present on the page, which is then
re-reported. -/
theorem C2_idempotence_amended (site : Site) (uj : String → String → String)
    (initMode initMode' : Bool) (items : List Row) (entry : List String)
    (h : (pyDictFromKeys
        (entry ++ (parseAndNotify site uj initMode items entry).newIds)).length ≤
      keepOf site) :
    (parseAndNotify site uj initMode' items
      (parseAndNotify site uj initMode items entry).stateEntry).newCount = 0 :=
  secondRun_zero site uj initMode initMode' items entry h

/-- Witness for C2 from empty state, where no truncation occurs. -/
theorem C2_witness :
    (pyDictFromKeys ([] ++
      (parseAndNotify siteMaxTwo ujId false [rowKa, rowKb] []).newIds)).length ≤
      keepOf siteMaxTwo ∧
    (parseAndNotify siteMaxTwo ujId true [rowKa, rowKb]
      (parseAndNotify siteMaxTwo ujId false [rowKa, rowKb] []).stateEntry).newCount = 0 :=
  ⟨by decide,
    C2_idempotence_amended siteMaxTwo ujId false true [rowKa, rowKb] [] (by decide)⟩

/-- Claim C3: a state entry with no duplicates and length at most
`max_items` keeps both properties through any `parse_and_notify` update,
and any number of runs starting from the empty entry maintains them. -/
theorem C3_retention_invariant (site : Site) (uj : String → String → String)
    (initMode : Bool) :
    (∀ entry items, entry.Nodup → entry.length ≤ keepOf site →
      ((parseAndNotify site uj initMode items entry).stateEntry.Nodup ∧
        (parseAndNotify site uj initMode items entry).stateEntry.length ≤
          keepOf site)) ∧
    (∀ pages, (runsFold site uj initMode pages []).Nodup ∧
      (runsFold site uj initMode pages []).length ≤ keepOf site) := by
  refine ⟨fun entry items h1 h2 =>
    stateInv_preserved site uj initMode items ⟨h1, h2⟩,
    fun pages => stateInv_runsFold site uj initMode pages ⟨List.nodup_nil, by simp⟩⟩

/-- Witness for C3 at a concrete site, entry and two-page history. -/
theorem C3_witness :
    (["ka|"] : List String).Nodup ∧
    (["ka|"] : List String).length ≤ keepOf siteMaxTwo ∧
    ((parseAndNotify siteMaxTwo ujId false [rowKb] ["ka|"]).stateEntry.Nodup ∧
      (parseAndNotify siteMaxTwo ujId false [rowKb] ["ka|"]).stateEntry.length ≤
        keepOf siteMaxTwo) ∧
    ((runsFold siteMaxTwo ujId false [[rowKa], [rowKb]] []).Nodup ∧
      (runsFold siteMaxTwo ujId false [[rowKa], [rowKb]] []).length ≤
        keepOf siteMaxTwo) :=
  ⟨by decide, by decide,
    (C3_retention_invariant siteMaxTwo ujId false).1 ["ka|"] [rowKb]
      (by decide) (by decide),
    (C3_retention_invariant siteMaxTwo ujId false).2 [[rowKa], [rowKb]]⟩

/-- Counterexample to claim C4: with `max_items = 0` the Python slice
`updated[-0:]` keeps the whole list, while the claimed formula truncates
to the last zero entries. -/
theorem C4_counterexample :
    updateState 0 ["a"] [] ≠ specUpdateState 0 ["a"] [] ∧
    updateState 0 ["a"] [] = ["a"] ∧ specUpdateState 0 ["a"] [] = [] := by
  decide

/-- Claim C4 (amended): for `max_items` at least 1 the stored sequence is
the concatenation deduplicated keeping first occurrences and truncated to
the last `max_items` entries, exactly as claimed; for `max_items = 0` the
sequence is the deduplicated concatenation left untruncated. -/
theorem C4_state_update_amended (keep : Nat) (entry newIds : List String)
    (h : 1 ≤ keep) :
    updateState keep entry newIds = specUpdateState keep entry newIds ∧
    updateState 0 entry newIds = pyDictFromKeys (entry ++ newIds) := by
  constructor
  · rw [updateState, specUpdateState, pySliceLast, if_neg (by omega), takeLastSpec]
  · rw [updateState, pySliceLast_zero]

/-- Witness for C4 at the default bound. -/
theorem C4_witness :
    (1 : Nat) ≤ 20 ∧
    (updateState 20 ["a", "b"] ["c"] = specUpdateState 20 ["a", "b"] ["c"] ∧
      updateState 0 ["a", "b"] ["c"] = pyDictFromKeys (["a", "b"] ++ ["c"])) :=
  ⟨by decide, C4_state_update_amended 20 ["a", "b"] ["c"] (by decide)⟩

/-- Counterexample to claim C5: status 301 lies in the claimed 2xx/3xx
success range, yet the code classifies it as a failure (success requires
status 204 or below 300). -/
theorem C5_counterexample :
    isSuccessStatus 301 = false ∧ 200 ≤ 301 ∧ 301 ≤ 399 ∧
    (discordPost (fun _ => ⟨301, none⟩)).ok = false := by
  decide

/-- Claim C5 (amended): a delivery response is a success exactly when its
status is strictly below 300; a 429 response sleeps the parsed
`retry_after` (default 1.0 when unparsable) plus the 0.2 margin and
retries; the attempt count never exceeds the bound of 5. -/
theorem C5_delivery_amended (oracle : Nat → Resp) (n i : Nat)
    (h : (oracle i).status = 429) :
    (∀ s, isSuccessStatus s = true ↔ s < 300) ∧
    discordLoop oracle (n + 1) i =
      ⟨(discordLoop oracle n (i + 1)).ok,
        ((oracle i).retryAfter.getD 1 + (2 : ℚ) / 10) ::
          (discordLoop oracle n (i + 1)).sleeps,
        (discordLoop oracle n (i + 1)).attempts + 1⟩ ∧
    (discordPost oracle).attempts ≤ 5 :=
  ⟨isSuccessStatus_iff, discordLoop_429 oracle n i h,
    discordLoop_attempts_le oracle 5 0⟩

/-- Witness for C5 at a concrete 429-then-204 response sequence. -/
theorem C5_witness :
    (oracle429 0).status = 429 ∧
    (isSuccessStatus 204 = true ↔ 204 < 300) ∧
    discordLoop oracle429 5 0 =
      ⟨(discordLoop oracle429 4 1).ok,
        ((oracle429 0).retryAfter.getD 1 + (2 : ℚ) / 10) ::
          (discordLoop oracle429 4 1).sleeps,
        (discordLoop oracle429 4 1).attempts + 1⟩ ∧
    (discordPost oracle429).attempts ≤ 5 :=
  ⟨rfl, (C5_delivery_amended oracle429 4 0 rfl).1 204,
    (C5_delivery_amended oracle429 4 0 rfl).2.1,
    (C5_delivery_amended oracle429 4 0 rfl).2.2⟩

/-- Claim C6: the full state is persisted exactly once after all sites;
a site whose fetch raised is skipped without affecting the state or the
total computed for the others; every failure is logged; with distinct
site names the failed site's entry is byte-for-byte the prior one. -/
theorem C6_isolation (uj : String → String → String) (initMode : Bool)
    (sites : List (Site × Except String (List Row))) (state0 : StateMap)
    (s : Site) (e : String) :
    (mainLoop uj initMode sites state0).persisted =
      [(mainLoop uj initMode sites state0).finalState] ∧
    (mainLoop uj initMode sites state0).finalState =
      (mainLoop uj initMode (sites.filter (fun p => isOkB p.2)) state0).finalState ∧
    (mainLoop uj initMode sites state0).totalNew =
      (mainLoop uj initMode (sites.filter (fun p => isOkB p.2)) state0).totalNew ∧
    (mainLoop uj initMode sites state0).errors.length =
      (sites.filter (fun p => !isOkB p.2)).length ∧
    ((sites.map (fun p => p.1.name)).Nodup → (s, Except.error e) ∈ sites →
      (mainLoop uj initMode sites state0).finalState s.name = state0 s.name) := by
  refine ⟨rfl, ?_, ?_, mainErrors_length sites, ?_⟩
  · show (sitesFold uj initMode sites state0 0).1 =
      (sitesFold uj initMode (sites.filter (fun p => isOkB p.2)) state0 0).1
    rw [sitesFold_filter_ok]
  · show (sitesFold uj initMode sites state0 0).2 =
      (sitesFold uj initMode (sites.filter (fun p => isOkB p.2)) state0 0).2
    rw [sitesFold_filter_ok]
  · intro hnames hmem
    exact sitesFold_error_entry uj initMode sites state0 0 hnames hmem

/-- Witness for C6 on the two-site fixture. -/
theorem C6_witness :
    (sitesFix.map (fun p => p.1.name)).Nodup ∧
    (siteBad, Except.error "boom") ∈ sitesFix ∧
    (mainLoop ujId false sitesFix (fun _ => [])).finalState siteBad.name =
      (fun _ => ([] : List String)) siteBad.name ∧
    (mainLoop ujId false sitesFix (fun _ => [])).errors.length =
      (sitesFix.filter (fun p => !isOkB p.2)).length :=
  ⟨by decide, List.mem_cons_self _ _,
    (C6_isolation ujId false sitesFix (fun _ => []) siteBad "boom").2.2.2.2
      (by decide) (List.mem_cons_self _ _),
    (C6_isolation ujId false sitesFix (fun _ => []) siteBad "boom").2.2.2.1⟩

/-- Claim C7: `fetch` makes at most `retries` attempts (default 3);
after the k-th failed attempt it sleeps `backoff * k`; when every attempt
fails it raises the last encountered error, and a first success on
attempt j returns after exactly the j preceding sleeps. -/
theorem C7_fetch_retry {E : Type} (retries : Nat) (b : ℚ)
    (oracle : Nat → Except E String) (es : Nat → E) (j : Nat) (s : String) :
    (fetchModel retries b oracle).tries ≤ retries ∧
    fetchModel retries b (fun n => Except.error (es n)) =
      ⟨.error (if retries = 0 then none else some (es (retries - 1))),
        (List.range retries).map (fun kk => b * ((kk + 1 : Nat) : ℚ)), retries⟩ ∧
    (j < retries → (∀ kk, kk < j → ∃ e, oracle kk = Except.error e) →
      oracle j = Except.ok s →
      fetchModel retries b oracle =
        ⟨.ok s, (List.range j).map (fun kk => b * ((kk + 1 : Nat) : ℚ)), j + 1⟩) := by
  refine ⟨fetchLoop_tries_le b oracle retries 0 none, ?_, ?_⟩
  · have h := fetchLoop_allFail b es retries 0 none
    simp only [Nat.zero_add] at h
    exact h
  · intro hj hfail hok
    have h := fetchLoop_firstSuccess b oracle s j retries 0 none hj
      (fun kk hkk => by rw [Nat.zero_add]; exact hfail kk hkk)
      (by rw [Nat.zero_add]; exact hok)
    simp only [Nat.zero_add] at h
    exact h

/-- Witness for C7: failure, success on the second attempt. -/
theorem C7_witness :
    (fetchModel 3 2 oracle3).result = Except.ok "html" ∧
    (fetchModel 3 2 oracle3).sleeps = [2] ∧
    (fetchModel 3 2 oracle3).tries = 2 := by
  have h := (C7_fetch_retry 3 2 oracle3 (fun n => n) 1 "html").2.2 (by omega)
    (fun kk hkk => ⟨kk, by
      have hkk0 : kk = 0 := by omega
      subst hkk0
      rfl⟩)
    rfl
  rw [h]
  refine ⟨rfl, ?_, rfl⟩
  simp [List.range_succ]

/-- Counterexample to claim C8: a pinned row matching the `strong` skip
rule is skipped, yet its would-be key `x|` still appears in the stored
sequence after a first run from empty state, because a different,
non-skipped row resolves to the same link. -/
theorem C8_counterexample :
    shouldSkipRow siteSkip rowPinned = true ∧
    (extractRowCore siteSkip ujId rowPinned).map dedupKey = some "x|" ∧
    "x|" ∈ (parseAndNotify siteSkip ujId false [rowPinned, rowPlainX] []).stateEntry := by
  decide

/-- Claim C8 (amended): a row matching a skip rule is never extracted, so
it is never counted as new and never delivered; every key in the stored
sequence comes from the prior state or from some non-skipped row, so the
skipped row's key appears only when another non-skipped row (or the prior
state) supplies the same key. -/
theorem C8_sticky_skip_amended (site : Site) (uj : String → String → String)
    (initMode : Bool) (items : List Row) (entry : List String) (row : Row)
    (rec : Record) (k : String) (hskip : shouldSkipRow site row = true) :
    extractRow site uj row = none ∧
    (k ∈ (parseAndNotify site uj initMode items entry).stateEntry →
      k ∈ entry ∨ ∃ row' ∈ items, shouldSkipRow site row' = false ∧
        ∃ r', extractRowCore site uj row' = some r' ∧ dedupKey r' = k) ∧
    (rec ∈ (parseAndNotify site uj initMode items entry).delivered →
      ∃ row' ∈ items, shouldSkipRow site row' = false ∧
        extractRowCore site uj row' = some rec) :=
  ⟨by simp [extractRow, hskip],
    fun h => mem_stateEntry h,
    fun h => (mem_delivered h).1⟩

/-- Witness for C8 on the pinned-row fixture. -/
theorem C8_witness :
    shouldSkipRow siteSkip rowPinned = true ∧
    extractRow siteSkip ujId rowPinned = none ∧
    ("x|" ∈ (parseAndNotify siteSkip ujId false [rowPinned, rowPlainX] []).stateEntry →
      "x|" ∈ ([] : List String) ∨
        ∃ row' ∈ [rowPinned, rowPlainX], shouldSkipRow siteSkip row' = false ∧
          ∃ r', extractRowCore siteSkip ujId row' = some r' ∧ dedupKey r' = "x|") :=
  ⟨by decide,
    (C8_sticky_skip_amended siteSkip ujId false [rowPinned, rowPlainX] []
      rowPinned { title := "tQ", link := some "x", date_text := none } "x|"
      (by decide)).1,
    (C8_sticky_skip_amended siteSkip ujId false [rowPinned, rowPlainX] []
      rowPinned { title := "tQ", link := some "x", date_text := none } "x|"
      (by decide)).2.1⟩

/-- Claim C9: a linkless record's key is the fixed rendering `None|`
joined with the date and never incorporates the title, so two linkless
records with equal dates share a key; keys already stored are never
re-counted or re-delivered in a later run. -/
theorem C9_linkless_rows (r r₁ r₂ rec : Record) (site : Site)
    (uj : String → String → String) (initMode : Bool) (items : List Row)
    (entry : List String) (k : String) (h0 : r.link = none)
    (h1 : r₁.link = none) (h2 : r₂.link = none)
    (hd : r₁.date_text = r₂.date_text) :
    dedupKey r = "None|" ++ dateOrEmpty r.date_text ∧
    dedupKey r₁ = dedupKey r₂ ∧
    (k ∈ (parseAndNotify site uj initMode items entry).newIds → k ∉ entry) ∧
    (rec ∈ (parseAndNotify site uj initMode items entry).delivered →
      dedupKey rec ∉ entry) := by
  refine ⟨?_, ?_, fun h => newIds_fresh h, fun h => (mem_delivered h).2⟩
  · simp only [dedupKey, h0]
    rfl
  · simp only [dedupKey, h1, h2, hd]

/-- Witness for C9 at two linkless records sharing a date. -/
theorem C9_witness :
    ({ title := "t1", link := none, date_text := some "2024" } : Record).link = none ∧
    ({ title := "t2", link := none, date_text := some "2024" } : Record).link = none ∧
    ({ title := "t1", link := none, date_text := some "2024" } : Record).date_text =
      ({ title := "t2", link := none, date_text := some "2024" } : Record).date_text ∧
    (dedupKey { title := "t1", link := none, date_text := some "2024" } =
      "None|" ++ dateOrEmpty (some "2024") ∧
    dedupKey { title := "t1", link := none, date_text := some "2024" } =
      dedupKey { title := "t2", link := none, date_text := some "2024" } ∧
    ("ka|" ∈ (parseAndNotify siteDflt ujId false [rowKa] ["e"]).newIds →
      "ka|" ∉ (["e"] : List String)) ∧
    ({ title := "t1", link := none, date_text := some "2024" } ∈
        (parseAndNotify siteDflt ujId false [rowKa] ["e"]).delivered →
      dedupKey { title := "t1", link := none, date_text := some "2024" } ∉
        (["e"] : List String))) :=
  ⟨rfl, rfl, rfl,
    C9_linkless_rows
      { title := "t1", link := none, date_text := some "2024" }
      { title := "t1", link := none, date_text := some "2024" }
      { title := "t2", link := none, date_text := some "2024" }
      { title := "t1", link := none, date_text := some "2024" }
      siteDflt ujId false [rowKa] ["e"] "ka|" rfl rfl rfl rfl⟩

/-- Claim C10: the seen-set consulted during a pass is the one fixed at
entry, so two rows of one page with the same fresh key are each delivered
and each counted, while the stored sequence keeps that key exactly
once. -/
theorem C10_within_run (site : Site) (uj : String → String → String)
    (items : List Row) (entry : List String) (k : String)
    (hk : k ∉ entry)
    (hd : 2 ≤ ((recsOf site uj items).filter
      (fun r => decide (dedupKey r = k))).length) :
    2 ≤ ((parseAndNotify site uj false items entry).delivered.filter
        (fun r => decide (dedupKey r = k))).length ∧
    2 ≤ (parseAndNotify site uj false items entry).newCount ∧
    (parseAndNotify site uj false items entry).stateEntry.count k = 1 :=
  duplicates_within_run site uj items entry k hk hd

/-- Witness for C10: two rows resolving to the same link. -/
theorem C10_witness :
    ("x|" ∉ ([] : List String)) ∧
    2 ≤ ((recsOf siteDflt ujId [rowPlainX, rowPlainX2]).filter
      (fun r => decide (dedupKey r = "x|"))).length ∧
    (2 ≤ ((parseAndNotify siteDflt ujId false [rowPlainX, rowPlainX2] []).delivered.filter
        (fun r => decide (dedupKey r = "x|"))).length ∧
    2 ≤ (parseAndNotify siteDflt ujId false [rowPlainX, rowPlainX2] []).newCount ∧
    (parseAndNotify siteDflt ujId false [rowPlainX, rowPlainX2] []).stateEntry.count "x|" = 1) :=
  ⟨by decide, by decide,
    C10_within_run siteDflt ujId [rowPlainX, rowPlainX2] [] "x|"
      (by decide) (by decide)⟩

end Monitor
